import Mathlib

/-!
Shallow embedding of `partfinder/alignment.py` (PartitionFinder's PHYLIP-style
alignment reader) and proofs about it.

Modelling conventions:
* A text stream is a `List (List Char)` of lines with trailing newlines
  stripped.  `readline` at end of file returns the empty string forever in
  Python; we model "end of stream" as the empty list, and a parser loop that
  would re-read the empty string forever is given the outcome `Outcome.spin`
  (genuine divergence).
* Python exceptions are modelled by `PyErr`: the module's `AlignmentError`
  (one constructor per distinct `log.error` site, carrying the current line
  number), plus `valueError` (raised by `int()` on a non-integer token and by
  numpy on a shape-mismatched slice assignment) and `typeError`
  (`None + int`).
* The numpy matrix is a `List (List Nat)` of byte codes; slice assignment
  `row[s:e] = arr` clips the slice to the row length and, as numpy does,
  accepts either an exact length match or a broadcastable length-1 source.
-/

namespace PF

/-- The whitespace set of Python's `str.split()` / `str.strip()`:
space, tab, newline, carriage return, vertical tab, form feed. -/
def pyIsSpace (c : Char) : Bool :=
  c = ' ' || c = '\t' || c = '\n' || c = '\r' || c = '\x0b' || c = '\x0c'

/-- Worker for `pySplit`; `cur` is the (reversed) token being accumulated. -/
def pySplitAux (cur : List Char) : List Char → List (List Char)
  | [] => if cur = [] then [] else [cur.reverse]
  | c :: cs =>
    if pyIsSpace c then
      if cur = [] then pySplitAux [] cs else cur.reverse :: pySplitAux [] cs
    else
      pySplitAux (c :: cur) cs

/-- Python's `line.split()`: split on runs of whitespace, no empty fields. -/
def pySplit (l : List Char) : List (List Char) :=
  pySplitAux [] l

/-- Python's `line.strip()`: remove leading and trailing whitespace. -/
def pyStrip (l : List Char) : List Char :=
  ((l.dropWhile pyIsSpace).reverse.dropWhile pyIsSpace).reverse

/-- Decimal digit recognition for `int()`. -/
def isDigitChar (c : Char) : Bool :=
  '0' ≤ c && c ≤ '9'

/-- Fold decimal digits left to right; `none` on any non-digit. -/
def digitsFold (acc : Nat) : List Char → Option Nat
  | [] => some acc
  | c :: cs =>
    if isDigitChar c then digitsFold (10 * acc + (c.toNat - 48)) cs else none

/-- A non-empty all-digit token, as `int()` requires after the sign. -/
def parseDigits1 (l : List Char) : Option Nat :=
  match l with
  | [] => none
  | _ :: _ => digitsFold 0 l

/-- Python's `int(token)` on a whitespace-free token: optional sign then a
non-empty digit run; anything else raises `ValueError` (here: `none`). -/
def parseIntChars : List Char → Option Int
  | [] => none
  | c :: cs =>
    if c = '+' then (parseDigits1 cs).map Int.ofNat
    else if c = '-' then (parseDigits1 cs).map (fun n => -(n : Int))
    else (parseDigits1 (c :: cs)).map Int.ofNat

/-- Decimal rendering of a natural number, as `"%d"` prints it. -/
def natToChars (n : Nat) : List Char :=
  if n = 0 then ['0'] else ((Nat.digits 10 n).map Nat.digitChar).reverse

/-- The distinct `log.error`-then-`raise AlignmentError` sites of the parser,
plus the subset projector's range error. -/
inductive ErrKind where
  | malformedHeader
  | exceedsLength
  | inconsistentLength
  | badDataLine
  | invalidSymbol
  | eofInterleave
  | blankInBlock
  | missingBlankSep
  deriving DecidableEq, Repr

/-- Exceptions escaping the parse. -/
inductive PyErr where
  | alignment (kind : ErrKind) (line : Nat)
  | valueError
  | typeError
  deriving DecidableEq, Repr

/-- Outcome of running a piece of the parser: a value, an exception, or
divergence (the Python loop re-reads the empty string at EOF forever). -/
inductive Outcome (α : Type) where
  | ok (a : α)
  | err (e : PyErr)
  | spin
  deriving DecidableEq, Repr

/-- The final alignment container: ordered species names, declared column
count, and the matrix of byte codes. -/
structure Alignment where
  species : List (List Char)
  sequenceLength : Nat
  data : List (List Nat)
  deriving DecidableEq, Repr

/-- Mutable parser state (`AlignmentParser`'s fields; `end_base` is always
`start_base + block_len` and is kept derived). -/
structure PState where
  currentLine : Nat
  startBase : Nat
  blockLen : Option Nat
  species : List (List Char)
  speciesCount : Nat
  sequenceLength : Nat
  data : List (List Nat)
  deriving DecidableEq, Repr

/-- `AlignmentParser.bases_to_array`: uppercase, optionally validate against
the allowed alphabet (`translate` deletes the allowed characters and the
remainder must be empty), then take the raw character codes. -/
def basesToArray (validBases : Option (List Char)) (line : Nat)
    (bases : List Char) : Except PyErr (List Nat) :=
  let ub := bases.map Char.toUpper
  match validBases with
  | some valid =>
    if (ub.filter (fun c => !(valid.contains c))) ≠ [] then
      .error (.alignment .invalidSymbol line)
    else
      .ok (ub.map Char.toNat)
  | none => .ok (ub.map Char.toNat)

/-- `AlignmentParser.check_block`: the first line of a block fixes
`block_len` (with the source's lax `> sequence_length + 1` overflow bound);
later lines must match it exactly. -/
def checkBlock (st : PState) (curLen : Nat) : Except PyErr PState :=
  match st.blockLen with
  | none =>
    if st.startBase + curLen > st.sequenceLength + 1 then
      .error (.alignment .exceedsLength st.currentLine)
    else
      .ok { st with blockLen := some curLen }
  | some bl =>
    if curLen ≠ bl then
      .error (.alignment .inconsistentLength st.currentLine)
    else
      .ok st

/-- numpy `row[s:e] = arr` (with `s ≤ e`): the slice is clipped to the row
length; assignment needs an exact length match or a length-1 broadcast,
otherwise `ValueError`. -/
def sliceAssign (row : List Nat) (s e : Nat) (arr : List Nat) :
    Option (List Nat) :=
  let s' := min s row.length
  let clip := min e row.length - s'
  if arr.length = clip then
    some (row.take s' ++ arr ++ row.drop (s' + clip))
  else if arr.length = 1 then
    some (row.take s' ++ List.replicate clip (arr.headD 0) ++
          row.drop (s' + clip))
  else
    none

/-- `self.data[i, s:e] = arr` on the row-list matrix. -/
def matrixAssign (data : List (List Nat)) (i s e : Nat) (arr : List Nat) :
    Option (List (List Nat)) :=
  match sliceAssign (data.getD i []) s e arr with
  | some r => some (data.set i r)
  | none => none

/-- `AlignmentParser.parse_header`: skip blank lines, demand exactly two
fields, convert both with `int`.  At end of stream the source only logs and
`continue`s, re-reading the empty string forever: outcome `spin`. -/
def parseHeaderAux : List (List Char) → Nat →
    Outcome (Int × Int × Nat × List (List Char))
  | [], _ => .spin
  | l :: rest, line =>
    if pyStrip l = [] then
      parseHeaderAux rest (line + 1)
    else
      let bits := pySplit l
      if bits.length = 2 then
        match parseIntChars (bits.getD 0 []), parseIntChars (bits.getD 1 []) with
        | some s, some c => .ok (s, c, line + 1, rest)
        | _, _ => .err .valueError
      else
        .err (.alignment .malformedHeader (line + 1))

/-- `AlignmentParser.parse_species_block`'s loop, at species index `cur`.
Blank lines are skipped; a data line must be `name bases`; at end of stream
the source only logs and `continue`s forever (`spin`).  After the loop the
source runs `start_base += block_len`, a `TypeError` when `block_len` is
still `None`. -/
def parseSpeciesBlockAux (vb : Option (List Char)) (cur : Nat) (st : PState) :
    List (List Char) → Outcome (PState × List (List Char))
  | [] =>
    if cur < st.speciesCount then
      .spin
    else
      match st.blockLen with
      | none => .err .typeError
      | some bl => .ok ({ st with startBase := st.startBase + bl }, [])
  | l :: rest =>
    if cur < st.speciesCount then
      let st := { st with currentLine := st.currentLine + 1 }
      let bits := pySplit l
      if bits.length = 0 then
        parseSpeciesBlockAux vb cur st rest
      else if bits.length ≠ 2 then
        .err (.alignment .badDataLine st.currentLine)
      else
        let spec := bits.getD 0 []
        let bases := bits.getD 1 []
        match checkBlock st bases.length with
        | .error e => .err e
        | .ok st =>
          let st := { st with species := st.species ++ [spec] }
          match basesToArray vb st.currentLine bases with
          | .error e => .err e
          | .ok arr =>
            let bl := st.blockLen.getD 0
            match matrixAssign st.data cur st.startBase (st.startBase + bl)
                arr with
            | none => .err .valueError
            | some d =>
              parseSpeciesBlockAux vb (cur + 1) { st with data := d } rest
    else
      match st.blockLen with
      | none => .err .typeError
      | some bl => .ok ({ st with startBase := st.startBase + bl }, l :: rest)

/-- `AlignmentParser.parse_species_block`: resets `block_len` and runs the
loop from species 0. -/
def parseSpeciesBlock (vb : Option (List Char)) (st : PState)
    (lines : List (List Char)) : Outcome (PState × List (List Char)) :=
  parseSpeciesBlockAux vb 0 { st with blockLen := none } lines

/-- `AlignmentParser.parse_interleave_block`'s loop at species index `snum`
with `blanks` blank lines seen so far in this call. -/
def parseInterleaveAux (vb : Option (List Char)) (snum blanks : Nat)
    (st : PState) : List (List Char) → Outcome (Bool × PState × List (List Char))
  | [] =>
    if snum < st.speciesCount then
      let st := { st with currentLine := st.currentLine + 1 }
      if snum ≠ 0 then
        .err (.alignment .eofInterleave st.currentLine)
      else
        .ok (false, st, [])
    else
      match st.blockLen with
      | none => .err .typeError
      | some bl => .ok (true, { st with startBase := st.startBase + bl }, [])
  | l :: rest =>
    if snum < st.speciesCount then
      let st := { st with currentLine := st.currentLine + 1 }
      let bases := pyStrip l
      if bases.length = 0 then
        if snum ≠ 0 then
          .err (.alignment .blankInBlock st.currentLine)
        else
          parseInterleaveAux vb snum (blanks + 1) st rest
      else if blanks = 0 then
        .err (.alignment .missingBlankSep st.currentLine)
      else
        match checkBlock st bases.length with
        | .error e => .err e
        | .ok st =>
          match basesToArray vb st.currentLine bases with
          | .error e => .err e
          | .ok arr =>
            let bl := st.blockLen.getD 0
            match matrixAssign st.data snum st.startBase (st.startBase + bl)
                arr with
            | none => .err .valueError
            | some d =>
              parseInterleaveAux vb (snum + 1) blanks { st with data := d } rest
    else
      match st.blockLen with
      | none => .err .typeError
      | some bl =>
        .ok (true, { st with startBase := st.startBase + bl }, l :: rest)

/-- `AlignmentParser.parse_interleave_block`: fresh `species_num`,
`blank_lines` and `block_len`, then the loop. -/
def parseInterleaveBlock (vb : Option (List Char)) (st : PState)
    (lines : List (List Char)) : Outcome (Bool × PState × List (List Char)) :=
  parseInterleaveAux vb 0 0 { st with blockLen := none } lines

/-- `while self.parse_interleave_block(): pass`, then the container copies
`sequence_length`, `species` and `data` out of the parser.  Each `true`
return of a block with at least one species consumes at least one line, so
fuel `lines.length + 1` (supplied by `parseLines`) never runs out on inputs
that do not already diverge or error. -/
def interleaveLoop (vb : Option (List Char)) (st : PState)
    (lines : List (List Char)) : Nat → Outcome Alignment
  | 0 => .spin
  | fuel + 1 =>
    match parseInterleaveBlock vb st lines with
    | .spin => .spin
    | .err e => .err e
    | .ok (false, st', _) => .ok ⟨st'.species, st'.sequenceLength, st'.data⟩
    | .ok (true, st', rest) => interleaveLoop vb st' rest fuel

/-- The body of `AlignmentParser.parse` after the matrix allocation: the
sequential block, then interleaved blocks until exhaustion. -/
def parseAfterHeader (vb : Option (List Char)) (st : PState)
    (rest : List (List Char)) : Outcome Alignment :=
  match parseSpeciesBlock vb st rest with
  | .spin => .spin
  | .err e => .err e
  | .ok (st', rest') => interleaveLoop vb st' rest' (rest'.length + 1)

/-- `AlignmentParser.parse`: header, then allocation of the zero matrix
(numpy raises `ValueError` on a negative dimension), then the blocks. -/
def parseLines (vb : Option (List Char)) (lines : List (List Char)) :
    Outcome Alignment :=
  match parseHeaderAux lines 0 with
  | .spin => .spin
  | .err e => .err e
  | .ok (s, c, line, rest) =>
    if s < 0 ∨ c < 0 then
      .err .valueError
    else
      parseAfterHeader vb
        { currentLine := line, startBase := 0, blockLen := none,
          species := [], speciesCount := s.toNat, sequenceLength := c.toNat,
          data := List.replicate s.toNat (List.replicate c.toNat 0) } rest

/-- Split a character stream into lines at each newline. -/
def splitNl : List Char → List (List Char)
  | [] => [[]]
  | c :: cs =>
    if c = '\n' then
      [] :: splitNl cs
    else
      match splitNl cs with
      | seg :: segs => (c :: seg) :: segs
      | [] => [[c]]

/-- The line sequence `readline` yields for a text: segments between
newlines, without a phantom empty line after a trailing newline. -/
def toLines (cs : List Char) : List (List Char) :=
  let segs := splitNl cs
  if segs.getLast? = some [] then segs.dropLast else segs

/-- `Alignment.parse_stream` on a character stream: the container always
constructs `AlignmentParser(stream)` with `valid_bases=None`. -/
def parseChars (cs : List Char) : Outcome Alignment :=
  parseLines none (toLines cs)

/-- `Alignment.parse(text)`: wrap the text in a stream and parse it. -/
def Alignment.parse (t : String) : Outcome Alignment :=
  parseChars t.data

/-- One line of `Alignment.write_phylip`'s body: name truncated to 99
characters, four spaces, the raw codes, newline. -/
def phylipLine (name : List Char) (row : List Nat) : List Char :=
  name.take 99 ++ [' ', ' ', ' ', ' '] ++ row.map Char.ofNat ++ ['\n']

/-- The species lines of `write_phylip`.  The source pairs
`self.species[i]` with `self.data[i]` for `i in range(len(species))`; for
any parsed alignment the two lists have equal length, which is the pairing
this recursion takes. -/
def phylipRows : List (List Char) → List (List Nat) → List Char
  | n :: ns, r :: rs => phylipLine n r ++ phylipRows ns rs
  | _, _ => []

/-- `Alignment.write_phylip`: `"%d %d\n"` header then one line per species. -/
def writePhylip (a : Alignment) : List Char :=
  natToChars a.species.length ++ [' '] ++ natToChars a.sequenceLength ++
    ['\n'] ++ phylipRows a.species a.data

/-- The subset projector's error: the reported 1-based site (`max + 1`) and
the alignment's true length. -/
inductive SubsetErr where
  | outOfRange (siteMax : Nat) (len : Nat)
  deriving DecidableEq, Repr

/-- Python's `max` over a list of naturals (the source applies it to a
non-empty column list). -/
def pyMax (l : List Nat) : Nat :=
  l.foldl Nat.max 0

/-- `SubsetAlignment.__init__`: bounds check `max(columns) + 1 >
sequence_length`, then share the species list and select the given columns
of every row in the given order. -/
def subsetAlignment (source : Alignment) (columns : List Nat) :
    Except SubsetErr Alignment :=
  let siteMax := pyMax columns + 1
  if siteMax > source.sequenceLength then
    .error (.outOfRange siteMax source.sequenceLength)
  else
    .ok ⟨source.species, columns.length,
      source.data.map (fun row => columns.map (fun c => row.getD c 0))⟩

/-- A well-formed field: non-empty and free of whitespace (spec section 6's
`<name>` and `<bases>` tokens). -/
def tokenOK (t : List Char) : Prop :=
  t ≠ [] ∧ ∀ c ∈ t, pyIsSpace c = false

/-- A well-formed in-line separator: non-empty whitespace. -/
def sepOK (s : List Char) : Prop :=
  s ≠ [] ∧ ∀ c ∈ s, pyIsSpace c = true

instance (t : List Char) : Decidable (tokenOK t) := by
  unfold tokenOK
  infer_instance

instance (s : List Char) : Decidable (sepOK s) := by
  unfold sepOK
  infer_instance

/-- Concatenate lines, terminating each with a newline. -/
def renderLines (ls : List (List Char)) : List Char :=
  ls.foldr (fun l acc => l ++ '\n' :: acc) []

/-- A canonical well-formed sequential-only input (spec section 6): a header
`S C`, then for each `(name, sep, bases)` triple one line `name sep bases`.
`S` is the number of triples. -/
def renderSeqInput (C : Nat)
    (ts : List (List Char × List Char × List Char)) : List Char :=
  natToChars ts.length ++ [' '] ++ natToChars C ++
    '\n' :: renderLines (ts.map (fun t => t.1 ++ t.2.1 ++ t.2.2))

/-- What `bases_to_array` stores with no alphabet configured. -/
def encodeBases (b : List Char) : List Nat :=
  (b.map Char.toUpper).map Char.toNat

/-- The successive row writes of a block starting at row `i` with
`start_base = 0`: each row becomes the written codes followed by the
untouched tail of the old row. -/
def writeRowsFrom (i : Nat) (arrs : List (List Nat))
    (data : List (List Nat)) : List (List Nat) :=
  match arrs with
  | [] => data
  | a :: as =>
    writeRowsFrom (i + 1) as (data.set i (a ++ (data.getD i []).drop a.length))

/-! ### Basic facts about the parser's error surface -/

/-- Is an exception the invalid-symbol format error? -/
def errIsInvalid : PyErr → Bool
  | .alignment .invalidSymbol _ => true
  | _ => false

/-- Does an outcome consist of the invalid-symbol format error? -/
def hasInvalidSymbol {α : Type} : Outcome α → Bool
  | .err e => errIsInvalid e
  | _ => false

theorem checkBlock_error_kinds (st : PState) (n : Nat) (e : PyErr)
    (h : checkBlock st n = .error e) :
    e = .alignment .exceedsLength st.currentLine ∨
    e = .alignment .inconsistentLength st.currentLine := by
  unfold checkBlock at h
  split at h
  · split at h
    · exact Or.inl (Except.error.inj h).symm
    · exact absurd h (by simp)
  · split at h
    · exact Or.inr (Except.error.inj h).symm
    · exact absurd h (by simp)

theorem basesToArray_none (ln : Nat) (bases : List Char) :
    basesToArray none ln bases = .ok ((bases.map Char.toUpper).map Char.toNat) :=
  rfl

theorem parseHeaderAux_blank_skip (n : Nat) (lines : List (List Char))
    (l : List Char) (h : pyStrip l = []) :
    parseHeaderAux (l :: lines) n = parseHeaderAux lines (n + 1) := by
  simp [parseHeaderAux, h]

theorem parseHeaderAux_all_blank (lines : List (List Char))
    (h : ∀ l ∈ lines, pyStrip l = []) (n : Nat) :
    parseHeaderAux lines n = .spin := by
  induction lines generalizing n with
  | nil => rfl
  | cons l rest ih =>
    rw [parseHeaderAux_blank_skip n rest l (h l (List.mem_cons_self l rest))]
    exact ih (fun x hx => h x (List.mem_cons_of_mem l hx)) (n + 1)

theorem speciesBlockAux_eof_spins (vb : Option (List Char)) (cur : Nat)
    (st : PState) (h : cur < st.speciesCount) :
    parseSpeciesBlockAux vb cur st [] = .spin := by
  simp [parseSpeciesBlockAux, h]

theorem parseHeaderAux_error_kinds (lines : List (List Char)) :
    ∀ (n : Nat) (e : PyErr), parseHeaderAux lines n = .err e →
      e = .valueError ∨ ∃ m, e = .alignment .malformedHeader m := by
  induction lines with
  | nil => intro n e h; exact absurd h (by simp [parseHeaderAux])
  | cons l rest ih =>
    intro n e h
    unfold parseHeaderAux at h
    dsimp only at h
    split at h
    · exact ih _ _ h
    · split at h
      · split at h
        · exact absurd h (by simp)
        · exact Or.inl (Outcome.err.inj h).symm
      · exact Or.inr ⟨n + 1, (Outcome.err.inj h).symm⟩

theorem speciesBlockAux_no_invalid (lines : List (List Char)) :
    ∀ (cur : Nat) (st : PState),
      hasInvalidSymbol (parseSpeciesBlockAux none cur st lines) = false := by
  induction lines with
  | nil =>
    intro cur st
    unfold parseSpeciesBlockAux
    split
    · rfl
    · split <;> rfl
  | cons l rest ih =>
    intro cur st
    unfold parseSpeciesBlockAux
    dsimp only
    split
    · split
      · exact ih _ _
      · split
        · rfl
        · split
          · rename_i e heq
            rcases checkBlock_error_kinds _ _ _ heq with rfl | rfl <;> rfl
          · split
            · rename_i heq
              exact absurd heq (by simp [basesToArray])
            · split
              · rfl
              · exact ih _ _
    · split <;> rfl

theorem interleaveAux_no_invalid (lines : List (List Char)) :
    ∀ (snum blanks : Nat) (st : PState),
      hasInvalidSymbol (parseInterleaveAux none snum blanks st lines) = false := by
  induction lines with
  | nil =>
    intro snum blanks st
    unfold parseInterleaveAux
    split
    · split <;> rfl
    · split <;> rfl
  | cons l rest ih =>
    intro snum blanks st
    unfold parseInterleaveAux
    dsimp only
    split
    · split
      · split
        · rfl
        · exact ih _ _ _
      · split
        · rfl
        · split
          · rename_i e heq
            rcases checkBlock_error_kinds _ _ _ heq with rfl | rfl <;> rfl
          · split
            · rename_i heq
              exact absurd heq (by simp [basesToArray])
            · split
              · rfl
              · exact ih _ _ _
    · split <;> rfl

theorem interleaveLoop_no_invalid (fuel : Nat) :
    ∀ (st : PState) (lines : List (List Char)),
      hasInvalidSymbol (interleaveLoop none st lines fuel) = false := by
  induction fuel with
  | zero => intro st lines; rfl
  | succ fuel ih =>
    intro st lines
    unfold interleaveLoop
    split
    · rfl
    · rename_i e heq
      have h2 := interleaveAux_no_invalid lines 0 0 { st with blockLen := none }
      rw [parseInterleaveBlock] at heq
      rw [heq] at h2
      exact h2
    · rfl
    · exact ih _ _

theorem parseAfterHeader_no_invalid (st : PState) (rest : List (List Char)) :
    hasInvalidSymbol (parseAfterHeader none st rest) = false := by
  unfold parseAfterHeader
  cases hb : parseSpeciesBlock none st rest with
  | spin => rfl
  | err e =>
    have h2 := speciesBlockAux_no_invalid rest 0 { st with blockLen := none }
    rw [parseSpeciesBlock] at hb
    rw [hb] at h2
    exact h2
  | ok p => exact interleaveLoop_no_invalid _ _ _

theorem parseLines_no_invalid (lines : List (List Char)) :
    hasInvalidSymbol (parseLines none lines) = false := by
  unfold parseLines
  split
  · rfl
  · rename_i e heq
    rcases parseHeaderAux_error_kinds _ _ _ heq with rfl | ⟨m, rfl⟩ <;> rfl
  · split
    · rfl
    · exact parseAfterHeader_no_invalid _ _

theorem parse_no_invalid (t : String) :
    hasInvalidSymbol (Alignment.parse t) = false :=
  parseLines_no_invalid (toLines t.data)

/-! ### Claim theorems -/

/-- Claim C1 (code bug).  At the boundary `end_base = sequence_length + 1`
the source's lax bound `end_base > sequence_length + 1` accepts the first
line of the block, and the parse then aborts with numpy's unstructured
broadcast `ValueError` instead of the structured exceeds-length format
error; only one base more raises that error.  Header `1 3` with data line
`A ACGT` has `end_base = 4 > 3 = sequence_length`, yet no format error. -/
theorem claim_C1_lax_overflow_bound :
    Alignment.parse "1 3\nA ACGT" = .err .valueError ∧
    Alignment.parse "1 3\nA ACGT" ≠ .err (.alignment .exceedsLength 2) ∧
    Alignment.parse "1 3\nA ACGTT" = .err (.alignment .exceedsLength 2) :=
  ⟨by decide, by decide, by decide⟩

/-- Claim C2 (code bug).  When the stream ends before any non-blank line,
`parse_header` only logs at end of file and `continue`s, so it re-reads the
empty string forever: the parse diverges instead of raising the
missing-header error and never returns an alignment. -/
theorem claim_C2_missing_header_diverges :
    (∀ lines : List (List Char), (∀ l ∈ lines, pyStrip l = []) →
      ∀ n, parseHeaderAux lines n = .spin) ∧
    Alignment.parse "" = .spin ∧ Alignment.parse "\n \n" = .spin :=
  ⟨parseHeaderAux_all_blank, by decide, by decide⟩

/-- Witness for C2 at the concrete all-blank stream `[" "]` and input `""`. -/
theorem claim_C2_witness :
    parseHeaderAux [[' ']] 0 = .spin :=
  claim_C2_missing_header_diverges.1 [[' ']] (by decide) 0

/-- Claim C3 (code bug).  When the stream is exhausted with fewer than
`species_count` data lines read, `parse_species_block` only logs at end of
file and `continue`s, so the parse diverges instead of aborting with an
error; `2 4` followed by a single species line spins. -/
theorem claim_C3_premature_eof_diverges :
    (∀ (vb : Option (List Char)) (cur : Nat) (st : PState),
      cur < st.speciesCount → parseSpeciesBlockAux vb cur st [] = .spin) ∧
    Alignment.parse "2 4\nA ACGT" = .spin :=
  ⟨speciesBlockAux_eof_spins, by decide⟩

/-- Witness for C3: one species read, two declared, stream exhausted. -/
theorem claim_C3_witness :
    parseSpeciesBlockAux none 1
      ⟨2, 0, some 4, [['A']], 2, 4, [[65, 67, 71, 84], [0, 0, 0, 0]]⟩ []
      = .spin :=
  claim_C3_premature_eof_diverges.1 none 1 _ (by decide)

/-- Claim C4 (confirmed).  The container's `parse_stream` constructs the
parser with `valid_bases=None` (our `parseLines none`), under which
`bases_to_array` never rejects: it uppercases and stores raw codes; hence no
input parsed through the container can raise the invalid-symbol error, and
`Z` under an intended nucleotide alignment is stored as code 90. -/
theorem claim_C4_no_alphabet_via_container :
    (∀ (ln : Nat) (bases : List Char),
      basesToArray none ln bases =
        .ok ((bases.map Char.toUpper).map Char.toNat)) ∧
    (∀ t : String, hasInvalidSymbol (Alignment.parse t) = false) ∧
    Alignment.parse "1 1\nS z" = .ok ⟨[['S']], 1, [[90]]⟩ :=
  ⟨fun ln bases => basesToArray_none ln bases, parse_no_invalid, by decide⟩

/-- Counterexample to C5 as stated: on first non-blank line `a b` (two
non-integer tokens) the parse aborts with the unstructured `ValueError`
from `int()`, not with the structured malformed-header format error. -/
theorem claim_C5_counterexample :
    Alignment.parse "a b" = .err .valueError ∧
    (Outcome.err PyErr.valueError : Outcome Alignment) ≠
      .err (.alignment .malformedHeader 1) :=
  ⟨by decide, by decide⟩

/-- Claim C5 (corrected).  A first non-blank line with a token count other
than two raises the structured malformed-header error; two tokens that are
not both integers instead abort with the unstructured `ValueError` raised
by `int()`. -/
theorem claim_C5_header_errors :
    (∀ (l : List Char) (rest : List (List Char)) (n : Nat),
      pyStrip l ≠ [] → (pySplit l).length ≠ 2 →
      parseHeaderAux (l :: rest) n =
        .err (.alignment .malformedHeader (n + 1))) ∧
    (∀ (l : List Char) (rest : List (List Char)) (n : Nat),
      pyStrip l ≠ [] → (pySplit l).length = 2 →
      (parseIntChars ((pySplit l).getD 0 []) = none ∨
        parseIntChars ((pySplit l).getD 1 []) = none) →
      parseHeaderAux (l :: rest) n = .err .valueError) ∧
    Alignment.parse "abc" = .err (.alignment .malformedHeader 1) ∧
    Alignment.parse "3" = .err (.alignment .malformedHeader 1) ∧
    Alignment.parse "a b" = .err .valueError := by
  refine ⟨?_, ?_, by decide, by decide, by decide⟩
  · intro l rest n h1 h2
    unfold parseHeaderAux
    dsimp only
    rw [if_neg h1, if_neg h2]
  · intro l rest n h1 h2 h3
    unfold parseHeaderAux
    dsimp only
    rw [if_neg h1, if_pos h2]
    rcases h3 with h3 | h3
    · rw [h3]
    · rw [h3]
      cases parseIntChars ((pySplit l).getD 0 []) <;> rfl

/-- Witness for C5 (amended): the one-token line `abc` and the
two-non-integer-token line `a b`. -/
theorem claim_C5_witness :
    parseHeaderAux [['a', 'b', 'c']] 0 =
      .err (.alignment .malformedHeader 1) ∧
    parseHeaderAux [['a', ' ', 'b']] 0 = .err .valueError :=
  ⟨claim_C5_header_errors.1 ['a', 'b', 'c'] [] 0 (by decide) (by decide),
   claim_C5_header_errors.2.1 ['a', ' ', 'b'] [] 0 (by decide) (by decide)
     (Or.inl (by decide))⟩

/-- Claim C6 (confirmed).  Once `block_len` is fixed by the first line of a
block, `check_block` rejects any line whose base count differs, with the
inconsistent-length error at the current line; this bites in the sequential
block (line 3 of the first example) and in an interleaved block (line 6 of
the second). -/
theorem claim_C6_inconsistent_block_length :
    (∀ (st : PState) (b l : Nat), st.blockLen = some b → l ≠ b →
      checkBlock st l =
        .error (.alignment .inconsistentLength st.currentLine)) ∧
    Alignment.parse "2 4\nA ACGT\nB ACG" =
      .err (.alignment .inconsistentLength 3) ∧
    Alignment.parse "2 4\nA AC\nB GT\n\nTT\nG" =
      .err (.alignment .inconsistentLength 6) := by
  refine ⟨?_, by decide, by decide⟩
  intro st b l hb hl
  unfold checkBlock
  rw [hb]
  dsimp only
  rw [if_pos hl]

/-- Witness for C6: a block of length 4 rejects a 3-base line at line 3. -/
theorem claim_C6_witness :
    checkBlock ⟨3, 0, some 4, [['A']], 2, 4, [[65, 67, 71, 84], [0, 0, 0, 0]]⟩ 3
      = .error (.alignment .inconsistentLength 3) :=
  claim_C6_inconsistent_block_length.1 _ 4 3 rfl (by decide)

/-! ### Interleave-block protocol lemmas (C7, C8) -/

theorem checkBlock_ok_count (st st' : PState) (n : Nat)
    (h : checkBlock st n = .ok st') : st'.speciesCount = st.speciesCount := by
  unfold checkBlock at h
  split at h
  · split at h
    · exact absurd h (by simp)
    · cases (Except.ok.inj h); rfl
  · split at h
    · exact absurd h (by simp)
    · cases (Except.ok.inj h); rfl

/-- Whenever the interleave loop returns `true`, the lines it consumed
contain exactly `species_count - snum` non-blank ones. -/
theorem interleaveAux_true_consumes (lines : List (List Char)) :
    ∀ (vb : Option (List Char)) (snum blanks : Nat) (st st' : PState)
      (rest : List (List Char)),
      snum ≤ st.speciesCount →
      parseInterleaveAux vb snum blanks st lines = .ok (true, st', rest) →
      ∃ pre, lines = pre ++ rest ∧
        snum + (pre.filter (fun l => !(pyStrip l).isEmpty)).length =
          st.speciesCount := by
  induction lines with
  | nil =>
    intro vb snum blanks st st' rest hle h
    unfold parseInterleaveAux at h
    split at h
    case isTrue hlt =>
      dsimp only at h
      split at h
      case isTrue => exact absurd h (by simp)
      case isFalse => exact absurd h (by simp)
    case isFalse hge =>
      split at h
      case h_1 => exact absurd h (by simp)
      case h_2 bl hbl =>
        simp only [Outcome.ok.injEq, Prod.mk.injEq, true_and] at h
        refine ⟨[], by simp [h.2], ?_⟩
        simpa using Nat.le_antisymm hle (Nat.le_of_not_lt hge)
  | cons l rest0 ih =>
    intro vb snum blanks st st' rest hle h
    unfold parseInterleaveAux at h
    split at h
    case isTrue hlt =>
      dsimp only at h
      split at h
      case isTrue hbl =>
        split at h
        case isTrue hz => exact absurd h (by simp)
        case isFalse hz =>
          obtain ⟨pre, hpre, hcnt⟩ :=
            ih vb snum (blanks + 1)
              { st with currentLine := st.currentLine + 1 } st' rest hle h
          refine ⟨l :: pre, by simp [hpre], ?_⟩
          have hfalse : (!(pyStrip l).isEmpty) = false := by
            rw [List.length_eq_zero.mp hbl]
            rfl
          simp only [List.filter_cons, hfalse]
          exact hcnt
      case isFalse hbl =>
        split at h
        case isTrue hb0 => exact absurd h (by simp)
        case isFalse hb0 =>
          split at h
          case h_1 e hcb => exact absurd h (by simp)
          case h_2 st2 hcb =>
            split at h
            case h_1 e hba => exact absurd h (by simp)
            case h_2 arr hba =>
              split at h
              case h_1 hma => exact absurd h (by simp)
              case h_2 d hma =>
                have hcnt2 := checkBlock_ok_count _ _ _ hcb
                obtain ⟨pre, hpre, hcnt⟩ :=
                  ih vb (snum + 1) blanks { st2 with data := d } st' rest
                    (show snum + 1 ≤ st2.speciesCount by
                      rw [hcnt2]; exact Nat.succ_le_of_lt hlt) h
                refine ⟨l :: pre, by simp [hpre], ?_⟩
                have htrue : (!(pyStrip l).isEmpty) = true := by
                  cases hc : pyStrip l with
                  | nil => exact absurd (by rw [hc]; rfl) hbl
                  | cons a as => rfl
                have hcnt' : snum + 1 +
                    (pre.filter (fun l => !(pyStrip l).isEmpty)).length =
                    st.speciesCount := by
                  rw [← hcnt2]; exact hcnt
                simp only [List.filter_cons, htrue, if_true,
                  List.length_cons]
                omega
    case isFalse hge =>
      split at h
      case h_1 => exact absurd h (by simp)
      case h_2 bl hbl =>
        simp only [Outcome.ok.injEq, Prod.mk.injEq, true_and] at h
        refine ⟨[], by simp [h.2], ?_⟩
        simpa using Nat.le_antisymm hle (Nat.le_of_not_lt hge)

/-- Claim C7 (confirmed).  In `parse_interleave_block`: an empty read with
`species_num = 0` returns `false` and the caller then finishes normally
producing the alignment; an empty read with `species_num ≠ 0` raises the
incomplete-interleave-block error; and a `true` return means exactly
`species_count` non-blank lines of the consumed prefix were processed. -/
theorem claim_C7_interleave_eof_protocol :
    (∀ (vb : Option (List Char)) (st : PState), 0 < st.speciesCount →
      parseInterleaveBlock vb st [] =
        .ok (false, ⟨st.currentLine + 1, st.startBase, none, st.species,
          st.speciesCount, st.sequenceLength, st.data⟩, [])) ∧
    (∀ (vb : Option (List Char)) (snum blanks : Nat) (st : PState),
      snum ≠ 0 → snum < st.speciesCount →
      parseInterleaveAux vb snum blanks st [] =
        .err (.alignment .eofInterleave (st.currentLine + 1))) ∧
    (∀ (vb : Option (List Char)) (st st' : PState)
      (lines rest : List (List Char)),
      parseInterleaveBlock vb st lines = .ok (true, st', rest) →
      ∃ pre, lines = pre ++ rest ∧
        (pre.filter (fun l => !(pyStrip l).isEmpty)).length =
          st.speciesCount) ∧
    (∀ (vb : Option (List Char)) (st st' : PState)
      (lines rest : List (List Char)) (fuel : Nat),
      parseInterleaveBlock vb st lines = .ok (false, st', rest) →
      interleaveLoop vb st lines (fuel + 1) =
        .ok ⟨st'.species, st'.sequenceLength, st'.data⟩) := by
  refine ⟨?_, ?_, ?_, ?_⟩
  · intro vb st h
    rw [parseInterleaveBlock]
    unfold parseInterleaveAux
    rw [if_pos (show 0 < ({ st with blockLen := none } : PState).speciesCount
      from h)]
    simp
  · intro vb snum blanks st h1 h2
    unfold parseInterleaveAux
    rw [if_pos h2]
    dsimp only
    rw [if_pos h1]
  · intro vb st st' lines rest h
    rw [parseInterleaveBlock] at h
    obtain ⟨pre, hpre, hcnt⟩ :=
      interleaveAux_true_consumes lines vb 0 0 { st with blockLen := none }
        st' rest (Nat.zero_le _) h
    exact ⟨pre, hpre, by simpa using hcnt⟩
  · intro vb st st' lines rest fuel h
    unfold interleaveLoop
    rw [h]

/-- Witness for C7: end of stream at a fresh block returns `false` and the
loop finishes; end of stream after one species errors; a completed block
returns `true` having consumed its one data line. -/
theorem claim_C7_witness :
    parseInterleaveBlock none ⟨3, 2, some 9, [['A']], 1, 4, [[65, 67, 0, 0]]⟩
        [] = .ok (false, ⟨4, 2, none, [['A']], 1, 4, [[65, 67, 0, 0]]⟩, []) ∧
    parseInterleaveAux none 1 1 ⟨4, 2, some 2, [], 2, 4, [[0, 0, 0, 0],
        [0, 0, 0, 0]]⟩ [] = .err (.alignment .eofInterleave 5) ∧
    (∃ pre, ([[], ['T', 'T']] : List (List Char)) = pre ++ [] ∧
      (pre.filter (fun l => !(pyStrip l).isEmpty)).length = 1) ∧
    interleaveLoop none ⟨3, 2, some 9, [['A']], 1, 4, [[65, 67, 0, 0]]⟩ [] 1 =
      .ok ⟨[['A']], 4, [[65, 67, 0, 0]]⟩ :=
  ⟨claim_C7_interleave_eof_protocol.1 none _ (by decide),
   claim_C7_interleave_eof_protocol.2.1 none 1 1 _ (by decide) (by decide),
   claim_C7_interleave_eof_protocol.2.2.1 none
     ⟨3, 2, some 99, [['A']], 1, 4, [[65, 67, 0, 0]]⟩
     ⟨5, 4, some 2, [['A']], 1, 4, [[65, 67, 84, 84]]⟩
     [[], ['T', 'T']] [] (by decide),
   claim_C7_interleave_eof_protocol.2.2.2 none _
     ⟨4, 2, none, [['A']], 1, 4, [[65, 67, 0, 0]]⟩ [] [] 0 (by decide)⟩

/-- Claim C8 (confirmed).  In an interleaved block a blank line after at
least one species has been read raises the unexpected-blank-line error; a
non-blank line with no preceding blank line in this call raises the
missing-blank-separator error; and a blank line before any data is accepted
and counted into the blank-line counter. -/
theorem claim_C8_blank_line_rules :
    (∀ (vb : Option (List Char)) (snum blanks : Nat) (st : PState)
      (l : List Char) (rest : List (List Char)),
      snum ≠ 0 → snum < st.speciesCount → pyStrip l = [] →
      parseInterleaveAux vb snum blanks st (l :: rest) =
        .err (.alignment .blankInBlock (st.currentLine + 1))) ∧
    (∀ (vb : Option (List Char)) (snum : Nat) (st : PState)
      (l : List Char) (rest : List (List Char)),
      snum < st.speciesCount → pyStrip l ≠ [] →
      parseInterleaveAux vb snum 0 st (l :: rest) =
        .err (.alignment .missingBlankSep (st.currentLine + 1))) ∧
    (∀ (vb : Option (List Char)) (blanks : Nat) (st : PState)
      (l : List Char) (rest : List (List Char)),
      0 < st.speciesCount → pyStrip l = [] →
      parseInterleaveAux vb 0 blanks st (l :: rest) =
        parseInterleaveAux vb 0 (blanks + 1)
          { st with currentLine := st.currentLine + 1 } rest) := by
  refine ⟨?_, ?_, ?_⟩
  · intro vb snum blanks st l rest h1 h2 h3
    unfold parseInterleaveAux
    rw [if_pos h2]
    dsimp only
    rw [h3]
    simp [h1]
  · intro vb snum st l rest h1 h2
    have h3 : ¬((pyStrip l).length = 0) := by
      simpa [List.length_eq_zero] using h2
    unfold parseInterleaveAux
    rw [if_pos h1]
    dsimp only
    rw [if_neg h3, if_pos rfl]
  · intro vb blanks st l rest h1 h2
    unfold parseInterleaveAux
    rw [if_pos (show (0 : Nat) < st.speciesCount from h1)]
    dsimp only
    rw [h2]
    rw [if_pos (show ([] : List Char).length = 0 from rfl),
      if_neg (show ¬((0 : Nat) ≠ 0) by decide)]
    cases rest <;> rfl

/-- Witness for C8 at concrete states: a blank after one species errors, a
data line with no separator errors, and a leading blank is counted. -/
theorem claim_C8_witness :
    parseInterleaveAux none 1 1 ⟨5, 2, some 2, [], 2, 4,
        [[0, 0, 0, 0], [0, 0, 0, 0]]⟩ [[' '], ['G', 'G']] =
      .err (.alignment .blankInBlock 6) ∧
    parseInterleaveAux none 0 0 ⟨3, 2, none, [], 2, 4,
        [[0, 0, 0, 0], [0, 0, 0, 0]]⟩ [['T', 'T']] =
      .err (.alignment .missingBlankSep 4) ∧
    parseInterleaveAux none 0 0 ⟨3, 2, none, [], 2, 4,
        [[0, 0, 0, 0], [0, 0, 0, 0]]⟩ [[' '], ['T', 'T'], ['G', 'G']] =
      parseInterleaveAux none 0 1 ⟨4, 2, none, [], 2, 4,
        [[0, 0, 0, 0], [0, 0, 0, 0]]⟩ [['T', 'T'], ['G', 'G']] :=
  ⟨claim_C8_blank_line_rules.1 none 1 1 _ [' '] [['G', 'G']] (by decide)
     (by decide) (by decide),
   claim_C8_blank_line_rules.2.1 none 0 _ ['T', 'T'] [] (by decide)
     (by decide),
   claim_C8_blank_line_rules.2.2 none 0 _ [' '] [['T', 'T'], ['G', 'G']]
     (by decide) (by decide)⟩

/-! ### Subset projector (C9) -/

theorem le_foldl_max (l : List Nat) : ∀ a : Nat, a ≤ l.foldl Nat.max a := by
  induction l with
  | nil => intro a; exact Nat.le_refl a
  | cons x xs ih =>
    intro a
    exact Nat.le_trans (Nat.le_max_left a x) (ih (Nat.max a x))

theorem mem_le_pyMax (l : List Nat) :
    ∀ (a c : Nat), c ∈ l → c ≤ l.foldl Nat.max a := by
  induction l with
  | nil => intro a c hc; cases hc
  | cons x xs ih =>
    intro a c hc
    rcases List.mem_cons.mp hc with rfl | hc
    · exact Nat.le_trans (Nat.le_max_right a c) (le_foldl_max xs _)
    · exact ih _ c hc

/-- Claim C9 (confirmed).  `SubsetAlignment.__init__` raises the
out-of-range error exactly when `max(columns) ≥ sequence_length`, and the
error reports the 1-based offending site `max(columns) + 1` together with
the alignment's true length; otherwise it shares the source's species list,
sets `sequence_length` to the number of columns, and every row of the new
matrix holds exactly the chosen columns in the given order (duplicates
preserved), all of them in bounds. -/
theorem claim_C9_subset_projection (source : Alignment) (columns : List Nat)
    (hne : columns ≠ [])
    (hrows : ∀ row ∈ source.data, row.length = source.sequenceLength) :
    ((∃ e, subsetAlignment source columns = .error e) ↔
      source.sequenceLength ≤ pyMax columns) ∧
    (source.sequenceLength ≤ pyMax columns →
      subsetAlignment source columns =
        .error (.outOfRange (pyMax columns + 1) source.sequenceLength)) ∧
    (pyMax columns < source.sequenceLength →
      ∃ a, subsetAlignment source columns = .ok a ∧
        a.species = source.species ∧
        a.sequenceLength = columns.length ∧
        a.data.length = source.data.length ∧
        (∀ i j, i < source.data.length → j < columns.length →
          (a.data.getD i []).getD j 0 =
            (source.data.getD i []).getD (columns.getD j 0) 0) ∧
        (∀ row ∈ source.data, ∀ c ∈ columns, c < row.length)) := by
  refine ⟨⟨?_, ?_⟩, ?_, ?_⟩
  · rintro ⟨e, he⟩
    by_contra hlt
    unfold subsetAlignment at he
    rw [if_neg (by omega)] at he
    exact absurd he (by simp)
  · intro hle
    exact ⟨_, by unfold subsetAlignment; rw [if_pos (by omega)]⟩
  · intro hle
    unfold subsetAlignment
    rw [if_pos (by omega)]
  · intro hlt
    refine ⟨⟨source.species, columns.length,
      source.data.map (fun row => columns.map (fun c => row.getD c 0))⟩,
      by unfold subsetAlignment; rw [if_neg (by omega)], rfl, rfl,
      by simp, ?_, ?_⟩
    · intro i j hi hj
      have hi' : i < (source.data.map
          (fun row => columns.map (fun c => row.getD c 0))).length := by
        simpa using hi
      rw [List.getD_eq_getElem _ _ hi', List.getElem_map,
        List.getD_eq_getElem _ _ (by simpa using hj), List.getElem_map,
        List.getD_eq_getElem _ _ hi, List.getD_eq_getElem _ _ hj]
    · intro row hrow c hc
      have h1 := hrows row hrow
      have h2 := mem_le_pyMax columns 0 c hc
      unfold pyMax at hlt
      omega

/-- Witness for C9 at the spec's examples: a 10-column alignment rejects
columns `[0, 9, 10]` citing site 11 and length 10, and accepts `[9, 0, 0]`
preserving order and the duplicate. -/
theorem claim_C9_witness :
    subsetAlignment ⟨[['A']], 10, [[10, 11, 12, 13, 14, 15, 16, 17, 18, 19]]⟩
        [0, 9, 10] = .error (.outOfRange 11 10) ∧
    (∃ a, subsetAlignment
        ⟨[['A']], 10, [[10, 11, 12, 13, 14, 15, 16, 17, 18, 19]]⟩
        [9, 0, 0] = .ok a ∧
      a.species = [['A']] ∧
      a.sequenceLength = 3 ∧
      a.data.length = 1 ∧
      (∀ i j, i < 1 → j < 3 →
        (a.data.getD i []).getD j 0 =
          (([[10, 11, 12, 13, 14, 15, 16, 17, 18, 19]] :
            List (List Nat)).getD i []).getD
            (([9, 0, 0] : List Nat).getD j 0) 0) ∧
      (∀ row ∈ ([[10, 11, 12, 13, 14, 15, 16, 17, 18, 19]] :
          List (List Nat)), ∀ c ∈ ([9, 0, 0] : List Nat), c < row.length)) :=
  ⟨(claim_C9_subset_projection _ [0, 9, 10] (by decide) (by decide)).2.1
      (by decide),
   (claim_C9_subset_projection _ [9, 0, 0] (by decide) (by decide)).2.2
      (by decide)⟩

/-! ### Splitting, stripping and digit lemmas for the round trip (C10) -/

theorem pySplitAux_cons_nonspace (acc : List Char) (c : Char)
    (cs : List Char) (hc : pyIsSpace c = false) :
    pySplitAux acc (c :: cs) = pySplitAux (c :: acc) cs := by
  simp [pySplitAux, hc]

theorem pySplitAux_token (tok : List Char) :
    ∀ (acc rest : List Char), (∀ c ∈ tok, pyIsSpace c = false) →
      pySplitAux acc (tok ++ rest) = pySplitAux (tok.reverse ++ acc) rest := by
  induction tok with
  | nil => intro acc rest _; simp
  | cons c cs ih =>
    intro acc rest h
    rw [List.cons_append,
      pySplitAux_cons_nonspace acc c (cs ++ rest)
        (h c (List.mem_cons_self c cs)),
      ih (c :: acc) rest (fun x hx => h x (List.mem_cons_of_mem c hx))]
    simp

theorem pySplitAux_sep (sep : List Char) :
    ∀ (rest : List Char), (∀ c ∈ sep, pyIsSpace c = true) →
      pySplitAux [] (sep ++ rest) = pySplitAux [] rest := by
  induction sep with
  | nil => intro rest _; rfl
  | cons c cs ih =>
    intro rest h
    have hc : pyIsSpace c = true := h c (List.mem_cons_self c cs)
    rw [List.cons_append]
    show (if pyIsSpace c then _ else _) = _
    rw [if_pos hc, if_pos rfl]
    exact ih rest (fun x hx => h x (List.mem_cons_of_mem c hx))

theorem pySplitAux_sep_flush (acc : List Char) (hacc : acc ≠ [])
    (c : Char) (hc : pyIsSpace c = true) (cs : List Char) :
    pySplitAux acc (c :: cs) = acc.reverse :: pySplitAux [] cs := by
  simp [pySplitAux, hc, hacc]

theorem pySplitAux_nil_flush (acc : List Char) (hacc : acc ≠ []) :
    pySplitAux acc [] = [acc.reverse] := by
  simp [pySplitAux, hacc]

theorem pySplit_single (tok : List Char) (h : tokenOK tok) :
    pySplit tok = [tok] := by
  obtain ⟨hne, hns⟩ := h
  have h2 := pySplitAux_token tok [] [] hns
  rw [List.append_nil, List.append_nil] at h2
  rw [pySplit, h2, pySplitAux_nil_flush tok.reverse (by simpa using hne),
    List.reverse_reverse]

theorem pySplit_pair (name sep bases : List Char)
    (hn : tokenOK name) (hs : sepOK sep) (hb : tokenOK bases) :
    pySplit (name ++ sep ++ bases) = [name, bases] := by
  obtain ⟨hnne, hnns⟩ := hn
  obtain ⟨hsne, hsns⟩ := hs
  have hb2 : pySplitAux [] bases = [bases] := pySplit_single bases hb
  rw [pySplit, List.append_assoc,
    pySplitAux_token name [] (sep ++ bases) hnns]
  cases sep with
  | nil => exact absurd rfl hsne
  | cons c cs =>
    rw [List.cons_append,
      pySplitAux_sep_flush (name.reverse ++ []) (by simpa using hnne) c
        (hsns c (List.mem_cons_self c cs)) (cs ++ bases),
      pySplitAux_sep cs bases
        (fun x hx => hsns x (List.mem_cons_of_mem c hx)),
      hb2]
    simp

theorem pyStrip_ne_nil_of_mem (l : List Char) (c : Char) (hc : c ∈ l)
    (hns : pyIsSpace c = false) : pyStrip l ≠ [] := by
  intro h
  unfold pyStrip at h
  rw [List.reverse_eq_nil_iff] at h
  have h2 : ∀ x ∈ (l.dropWhile pyIsSpace).reverse, pyIsSpace x = true :=
    List.dropWhile_eq_nil_iff.mp h
  have h3 : ∀ x ∈ l.dropWhile pyIsSpace, pyIsSpace x = true := by
    intro x hx
    exact h2 x (List.mem_reverse.mpr hx)
  have h4 : c ∈ l.takeWhile pyIsSpace ∨ c ∈ l.dropWhile pyIsSpace := by
    rw [← List.mem_append, List.takeWhile_append_dropWhile]
    exact hc
  rcases h4 with h4 | h4
  · exact absurd (List.mem_takeWhile_imp h4) (by simp [hns])
  · exact absurd (h3 c h4) (by simp [hns])

theorem digitsFold_nil (acc : Nat) : digitsFold acc [] = some acc :=
  rfl

theorem digitsFold_cons (acc : Nat) (c : Char) (cs : List Char) :
    digitsFold acc (c :: cs) =
      if isDigitChar c then digitsFold (10 * acc + (c.toNat - 48)) cs
      else none :=
  rfl

theorem digitsFold_append (xs : List Char) :
    ∀ (acc : Nat) (ys : List Char),
      digitsFold acc (xs ++ ys) =
        match digitsFold acc xs with
        | some v => digitsFold v ys
        | none => none := by
  induction xs with
  | nil => intro acc ys; rfl
  | cons c cs ih =>
    intro acc ys
    rw [List.cons_append, digitsFold_cons, digitsFold_cons]
    by_cases hc : isDigitChar c = true
    · rw [if_pos hc, if_pos hc, ih]
    · rw [if_neg hc, if_neg hc]

theorem digitChar_digit_val (d : Nat) (h : d < 10) :
    isDigitChar (Nat.digitChar d) = true ∧
      (Nat.digitChar d).toNat - 48 = d := by
  interval_cases d <;> exact ⟨rfl, rfl⟩

theorem digitsFold_rev_digits (ds : List Nat) :
    ∀ acc : Nat, (∀ d ∈ ds, d < 10) →
      digitsFold acc ((ds.map Nat.digitChar).reverse) =
        some (acc * 10 ^ ds.length + Nat.ofDigits 10 ds) := by
  induction ds with
  | nil => intro acc _; simp [digitsFold, Nat.ofDigits]
  | cons d ds ih =>
    intro acc h
    have hd : d < 10 := h d (List.mem_cons_self d ds)
    obtain ⟨hd1, hd2⟩ := digitChar_digit_val d hd
    rw [List.map_cons, List.reverse_cons, digitsFold_append,
      ih acc (fun x hx => h x (List.mem_cons_of_mem d hx))]
    dsimp only
    rw [digitsFold_cons, if_pos hd1, hd2, digitsFold_nil]
    exact congrArg some (by rw [Nat.ofDigits_cons, List.length_cons]; ring)

theorem natToChars_ne_nil (n : Nat) : natToChars n ≠ [] := by
  unfold natToChars
  split
  · simp
  · rename_i h
    simp [List.reverse_eq_nil_iff, List.map_eq_nil_iff,
      Nat.digits_ne_nil_iff_ne_zero, h]

theorem natToChars_all_digits (n : Nat) :
    ∀ c ∈ natToChars n, isDigitChar c = true := by
  unfold natToChars
  split
  · intro c hc
    simp only [List.mem_singleton] at hc
    subst hc
    rfl
  · intro c hc
    rw [List.mem_reverse, List.mem_map] at hc
    obtain ⟨d, hd, rfl⟩ := hc
    exact (digitChar_digit_val d (Nat.digits_lt_base (by norm_num) hd)).1

theorem isDigit_not_space (c : Char) (h : isDigitChar c = true) :
    pyIsSpace c = false := by
  by_contra h2
  rw [Bool.not_eq_false] at h2
  unfold pyIsSpace at h2
  simp only [Bool.or_eq_true, decide_eq_true_eq] at h2
  rcases h2 with ((((rfl | rfl) | rfl) | rfl) | rfl) | rfl <;>
    exact absurd h (by decide)

theorem isDigit_not_sign (c : Char) (h : isDigitChar c = true) :
    c ≠ '+' ∧ c ≠ '-' := by
  constructor <;> rintro rfl <;> exact absurd h (by decide)

theorem parseDigits1_natToChars (n : Nat) :
    parseDigits1 (natToChars n) = some n := by
  by_cases h : n = 0
  · subst h; rfl
  · have hnil : Nat.digits 10 n ≠ [] := Nat.digits_ne_nil_iff_ne_zero.mpr h
    have hfold := digitsFold_rev_digits (Nat.digits 10 n) 0
      (fun d hd => Nat.digits_lt_base (by norm_num) hd)
    rw [Nat.ofDigits_digits] at hfold
    rw [natToChars, if_neg h]
    cases hc : ((Nat.digits 10 n).map Nat.digitChar).reverse with
    | nil =>
      exfalso
      apply hnil
      simpa [List.reverse_eq_nil_iff, List.map_eq_nil_iff] using hc
    | cons a as =>
      rw [hc] at hfold
      show digitsFold 0 (a :: as) = some n
      rw [hfold]
      norm_num

theorem parseIntChars_natToChars (n : Nat) :
    parseIntChars (natToChars n) = some (n : Int) := by
  cases hc : natToChars n with
  | nil => exact absurd hc (natToChars_ne_nil n)
  | cons a as =>
    have hd : isDigitChar a = true :=
      natToChars_all_digits n a (hc ▸ List.mem_cons_self a as)
    obtain ⟨h1, h2⟩ := isDigit_not_sign a hd
    show (if a = '+' then (parseDigits1 as).map Int.ofNat
      else if a = '-' then (parseDigits1 as).map (fun m => -(m : Int))
      else (parseDigits1 (a :: as)).map Int.ofNat) = some (n : Int)
    rw [if_neg h1, if_neg h2, ← hc, parseDigits1_natToChars]
    rfl

theorem natToChars_nonspace (n : Nat) :
    ∀ c ∈ natToChars n, pyIsSpace c = false :=
  fun c hc => isDigit_not_space c (natToChars_all_digits n c hc)

/-! ### Character class facts for the round trip -/

theorem char_eq_of_toNat (c : Char) (k : Nat) (h : c.toNat = k) :
    c = Char.ofNat k := by
  rw [← h, Char.ofNat_toNat]

theorem pyIsSpace_iff_code (c : Char) :
    pyIsSpace c = true ↔ (c.toNat = 32 ∨ c.toNat = 9 ∨ c.toNat = 10 ∨
      c.toNat = 13 ∨ c.toNat = 11 ∨ c.toNat = 12) := by
  unfold pyIsSpace
  simp only [Bool.or_eq_true, decide_eq_true_eq]
  constructor
  · rintro (((((rfl | rfl) | rfl) | rfl) | rfl) | rfl) <;> simp [Char.toNat]
  · rintro (h | h | h | h | h | h) <;> rw [char_eq_of_toNat c _ h] <;> decide

theorem charToNat_ofNat_valid (k : Nat) (h : Nat.isValidChar k) :
    (Char.ofNat k).toNat = k := by
  rw [Char.ofNat, dif_pos h]
  rfl

theorem toUpper_cases (c : Char) :
    c.toUpper = c ∨ (97 ≤ c.toNat ∧ c.toNat ≤ 122 ∧
      c.toUpper.toNat = c.toNat - 32) := by
  by_cases h : c.toNat ≥ 97 ∧ c.toNat ≤ 122
  · right
    refine ⟨h.1, h.2, ?_⟩
    show (Char.toUpper c).toNat = _
    unfold Char.toUpper
    rw [if_pos h]
    exact charToNat_ofNat_valid _ (Or.inl (by omega))
  · left
    show Char.toUpper c = c
    unfold Char.toUpper
    rw [if_neg h]

theorem toUpper_nonspace (c : Char) (h : pyIsSpace c = false) :
    pyIsSpace c.toUpper = false := by
  rcases toUpper_cases c with heq | ⟨h1, h2, h3⟩
  · rw [heq]; exact h
  · by_contra h4
    rw [Bool.not_eq_false, pyIsSpace_iff_code, h3] at h4
    omega

theorem toUpper_idem (c : Char) : c.toUpper.toUpper = c.toUpper := by
  rcases toUpper_cases c with heq | ⟨h1, h2, h3⟩
  · rw [heq, heq]
  · rcases toUpper_cases c.toUpper with heq2 | ⟨h4, _, _⟩
    · exact heq2
    · rw [h3] at h4; omega

theorem cell_code_roundtrip (c : Char) :
    ((Char.ofNat ((Char.toUpper c).toNat)).toUpper).toNat =
      (Char.toUpper c).toNat := by
  rw [Char.ofNat_toNat, toUpper_idem]

/-! ### Line splitting of rendered text -/

theorem splitNl_cons_newline (rest : List Char) :
    splitNl ('\n' :: rest) = [] :: splitNl rest := by
  simp [splitNl]

theorem splitNl_append_newline (l : List Char) :
    ∀ rest : List Char, (∀ c ∈ l, c ≠ '\n') →
      splitNl (l ++ '\n' :: rest) = l :: splitNl rest := by
  induction l with
  | nil => intro rest _; exact splitNl_cons_newline rest
  | cons c cs ih =>
    intro rest h
    rw [List.cons_append]
    show (if c = '\n' then _ else _) = _
    rw [if_neg (h c (List.mem_cons_self c cs)),
      ih rest (fun x hx => h x (List.mem_cons_of_mem c hx))]

theorem splitNl_renderLines (ls : List (List Char)) :
    (∀ l ∈ ls, ∀ c ∈ l, c ≠ '\n') →
      splitNl (renderLines ls) = ls ++ [[]] := by
  induction ls with
  | nil => intro _; rfl
  | cons l ls ih =>
    intro h
    show splitNl (l ++ '\n' :: renderLines ls) = _
    rw [splitNl_append_newline l _ (h l (List.mem_cons_self l ls)),
      ih (fun x hx => h x (List.mem_cons_of_mem l hx))]
    rfl

theorem toLines_render (head : List Char) (ls : List (List Char))
    (hh : ∀ c ∈ head, c ≠ '\n') (h : ∀ l ∈ ls, ∀ c ∈ l, c ≠ '\n') :
    toLines (head ++ '\n' :: renderLines ls) = head :: ls := by
  unfold toLines
  rw [splitNl_append_newline head _ hh, splitNl_renderLines ls h]
  dsimp only
  rw [show head :: (ls ++ [[]]) = (head :: ls) ++ [[]] from by simp,
    List.getLast?_concat, List.dropLast_concat, if_pos rfl]

/-! ### Running the parser on a rendered sequential input -/

theorem basesToArray_none_enc (ln : Nat) (bases : List Char) :
    basesToArray none ln bases = .ok (encodeBases bases) :=
  rfl

theorem parseHeaderAux_run (S C : Nat) (rest : List (List Char)) (n : Nat) :
    parseHeaderAux ((natToChars S ++ [' '] ++ natToChars C) :: rest) n =
      .ok ((S : Int), (C : Int), n + 1, rest) := by
  have htS : tokenOK (natToChars S) :=
    ⟨natToChars_ne_nil S, natToChars_nonspace S⟩
  have htC : tokenOK (natToChars C) :=
    ⟨natToChars_ne_nil C, natToChars_nonspace C⟩
  have hsep : sepOK [' '] := by
    refine ⟨by simp, ?_⟩
    intro c hc
    simp only [List.mem_singleton] at hc
    subst hc
    rfl
  obtain ⟨c0, hc0⟩ := List.exists_mem_of_ne_nil _ (natToChars_ne_nil S)
  have hstrip : pyStrip (natToChars S ++ [' '] ++ natToChars C) ≠ [] :=
    pyStrip_ne_nil_of_mem _ c0 (by simp [hc0])
      (natToChars_nonspace S c0 hc0)
  unfold parseHeaderAux
  dsimp only
  rw [if_neg hstrip, pySplit_pair _ _ _ htS hsep htC,
    if_pos (show ([natToChars S, natToChars C]).length = 2 from rfl),
    List.getD_cons_zero, List.getD_cons_succ, List.getD_cons_zero,
    parseIntChars_natToChars, parseIntChars_natToChars]

theorem speciesBlockAux_run (ts : List (List Char × List Char × List Char)) :
    ∀ (cur cl L C S : Nat) (sp : List (List Char)) (bl : Option Nat)
      (dt : List (List Nat)) (tail : List (List Char)),
      (∀ t ∈ ts, tokenOK t.1 ∧ sepOK t.2.1 ∧ tokenOK t.2.2 ∧
        t.2.2.length = L) →
      L ≤ C →
      (bl = some L ∨ (bl = none ∧ ts ≠ [])) →
      S = cur + ts.length →
      dt.length = S →
      (∀ row ∈ dt, row.length = C) →
      parseSpeciesBlockAux none cur ⟨cl, 0, bl, sp, S, C, dt⟩
          (ts.map (fun t => t.1 ++ t.2.1 ++ t.2.2) ++ tail) =
        .ok (⟨cl + ts.length, L, some L, sp ++ ts.map (fun t => t.1), S, C,
          writeRowsFrom cur (ts.map (fun t => encodeBases t.2.2)) dt⟩,
          tail) := by
  induction ts with
  | nil =>
    intro cur cl L C S sp bl dt tail hts hLC hbl hS hdlen hrows
    rcases hbl with rfl | ⟨rfl, hne⟩
    · simp only [List.length_nil] at hS
      have hcur : ¬ (cur < S) := by omega
      cases tail with
      | nil =>
        simp only [List.map_nil, List.nil_append]
        unfold parseSpeciesBlockAux
        dsimp only
        rw [if_neg hcur]
        simp [writeRowsFrom]
      | cons l rest =>
        simp only [List.map_nil, List.nil_append]
        unfold parseSpeciesBlockAux
        dsimp only
        rw [if_neg hcur]
        simp [writeRowsFrom]
    · exact absurd rfl hne
  | cons t ts ih =>
    intro cur cl L C S sp bl dt tail hts hLC hbl hS hdlen hrows
    simp only [List.length_cons] at hS
    obtain ⟨htok, hsep2, hbas, hlen⟩ := hts t (List.mem_cons_self t ts)
    have hts' : ∀ x ∈ ts, tokenOK x.1 ∧ sepOK x.2.1 ∧ tokenOK x.2.2 ∧
        x.2.2.length = L := fun x hx => hts x (List.mem_cons_of_mem t hx)
    have hcurS : cur < S := by omega
    have hcurlt : cur < dt.length := by omega
    have hrowC : (dt.getD cur []).length = C := by
      rw [List.getD_eq_getElem _ _ hcurlt]
      exact hrows _ (List.getElem_mem hcurlt)
    have henclen : (encodeBases t.2.2).length = L := by
      simp [encodeBases, hlen]
    have hcb : checkBlock ⟨cl + 1, 0, bl, sp, S, C, dt⟩ t.2.2.length =
        .ok ⟨cl + 1, 0, some L, sp, S, C, dt⟩ := by
      rcases hbl with rfl | ⟨rfl, -⟩
      · unfold checkBlock
        dsimp only
        rw [hlen, if_neg (by simp)]
      · unfold checkBlock
        dsimp only
        rw [hlen, if_neg (show ¬ (0 + L > C + 1) by omega)]
    have hma : matrixAssign dt cur 0 (0 + L) (encodeBases t.2.2) =
        some (dt.set cur (encodeBases t.2.2 ++
          (dt.getD cur []).drop (encodeBases t.2.2).length)) := by
      unfold matrixAssign sliceAssign
      dsimp only
      rw [henclen, hrowC, Nat.zero_add, Nat.zero_min, Nat.sub_zero,
        Nat.min_eq_left hLC, if_pos rfl, Nat.zero_add, List.take_zero,
        List.nil_append]
    have hrows' : ∀ row ∈ dt.set cur (encodeBases t.2.2 ++
        (dt.getD cur []).drop (encodeBases t.2.2).length),
        row.length = C := by
      intro row hrow
      rcases List.mem_or_eq_of_mem_set hrow with h | rfl
      · exact hrows row h
      · rw [List.length_append, henclen, List.length_drop, hrowC]
        omega
    simp only [List.map_cons, List.cons_append]
    unfold parseSpeciesBlockAux
    dsimp only
    rw [if_pos hcurS, pySplit_pair t.1 t.2.1 t.2.2 htok hsep2 hbas,
      if_neg (show ¬ ([t.1, t.2.2] : List (List Char)).length = 0 from
        by simp),
      if_neg (show ¬ ¬ ([t.1, t.2.2] : List (List Char)).length = 2 from
        by simp),
      List.getD_cons_zero, List.getD_cons_succ, List.getD_cons_zero,
      hcb]
    dsimp only
    rw [basesToArray_none_enc]
    dsimp only [Option.getD]
    rw [hma]
    dsimp only
    rw [ih (cur + 1) (cl + 1) L C S (sp ++ [t.1]) (some L) _ tail hts' hLC
      (Or.inl rfl) (by omega) (by simp [hdlen]) hrows']
    simp only [Outcome.ok.injEq, Prod.mk.injEq, PState.mk.injEq,
      List.length_cons, List.map_cons, List.append_assoc,
      List.singleton_append, writeRowsFrom, and_true, true_and, and_self]
    omega

theorem getD_append_len {α : Type} (pre : List α) :
    ∀ (l : List α) (d : α), (pre ++ l).getD pre.length d = l.getD 0 d := by
  induction pre with
  | nil => intro l d; rfl
  | cons x xs ih => intro l d; simpa using ih l d

theorem set_append_len {α : Type} (pre : List α) :
    ∀ (l : List α) (v : α), (pre ++ l).set pre.length v = pre ++ l.set 0 v := by
  induction pre with
  | nil => intro l v; rfl
  | cons x xs ih => intro l v; simpa using ih l v

theorem writeRowsFrom_replicate (arrs : List (List Nat)) :
    ∀ (pre : List (List Nat)) (C : Nat),
      writeRowsFrom pre.length arrs
          (pre ++ List.replicate arrs.length (List.replicate C 0)) =
        pre ++ arrs.map (fun a => a ++ List.replicate (C - a.length) 0) := by
  induction arrs with
  | nil => intro pre C; simp [writeRowsFrom]
  | cons a as ih =>
    intro pre C
    rw [List.length_cons, List.replicate_succ]
    show writeRowsFrom pre.length (a :: as) _ = _
    rw [writeRowsFrom, getD_append_len, set_append_len]
    have hv : (List.replicate C 0 ::
        List.replicate as.length (List.replicate C 0)).set 0
          (a ++ ((List.replicate C 0 :: List.replicate as.length
            (List.replicate C 0)).getD 0 []).drop a.length) =
        (a ++ List.replicate (C - a.length) 0) ::
          List.replicate as.length (List.replicate C 0) := by
      simp [List.drop_replicate]
    rw [hv,
      show pre ++ (a ++ List.replicate (C - a.length) 0) ::
          List.replicate as.length (List.replicate C 0) =
        (pre ++ [a ++ List.replicate (C - a.length) 0]) ++
          List.replicate as.length (List.replicate C 0) from by simp,
      show pre.length + 1 =
        (pre ++ [a ++ List.replicate (C - a.length) 0]).length from by simp,
      ih (pre ++ [a ++ List.replicate (C - a.length) 0]) C]
    simp

theorem ne_newline_of_nonspace (c : Char) (h : pyIsSpace c = false) :
    c ≠ '\n' := by
  rintro rfl
  exact absurd h (by decide)

theorem interleaveLoop_empty (st : PState) (h : 0 < st.speciesCount)
    (fuel : Nat) :
    interleaveLoop none st [] (fuel + 1) =
      .ok ⟨st.species, st.sequenceLength, st.data⟩ := by
  unfold interleaveLoop parseInterleaveBlock parseInterleaveAux
  rw [if_pos (show 0 < ({ st with blockLen := none } : PState).speciesCount
    from h)]
  rfl

/-- Parsing a rendered well-formed sequential-only input succeeds and
produces exactly the names and the uppercased, zero-padded matrix. -/
theorem parseChars_renderSeq (ts : List (List Char × List Char × List Char))
    (C L : Nat) (hne : ts ≠ [])
    (hts : ∀ t ∈ ts, tokenOK t.1 ∧ sepOK t.2.1 ∧ tokenOK t.2.2 ∧
      t.2.2.length = L ∧ '\n' ∉ t.2.1)
    (hLC : L ≤ C) :
    parseChars (renderSeqInput C ts) =
      .ok ⟨ts.map (fun t => t.1), C,
        ts.map (fun t => encodeBases t.2.2 ++ List.replicate (C - L) 0)⟩ := by
  have hts4 : ∀ t ∈ ts, tokenOK t.1 ∧ sepOK t.2.1 ∧ tokenOK t.2.2 ∧
      t.2.2.length = L := by
    intro t ht
    obtain ⟨h1, h2, h3, h4, -⟩ := hts t ht
    exact ⟨h1, h2, h3, h4⟩
  have hhead : ∀ c ∈ natToChars ts.length ++ [' '] ++ natToChars C,
      c ≠ '\n' := by
    intro c hc
    rcases List.mem_append.mp hc with hc | hc
    · rcases List.mem_append.mp hc with hc | hc
      · exact ne_newline_of_nonspace c (natToChars_nonspace _ c hc)
      · simp only [List.mem_singleton] at hc
        subst hc
        decide
    · exact ne_newline_of_nonspace c (natToChars_nonspace _ c hc)
  have hbody : ∀ l ∈ ts.map (fun t => t.1 ++ t.2.1 ++ t.2.2),
      ∀ c ∈ l, c ≠ '\n' := by
    intro l hl c hc
    rw [List.mem_map] at hl
    obtain ⟨t, ht, rfl⟩ := hl
    obtain ⟨⟨-, hn⟩, ⟨-, hs⟩, ⟨-, hb⟩, -, hnl⟩ := hts t ht
    rcases List.mem_append.mp hc with hc | hc
    · rcases List.mem_append.mp hc with hc | hc
      · exact ne_newline_of_nonspace c (hn c hc)
      · rintro rfl; exact hnl hc
    · exact ne_newline_of_nonspace c (hb c hc)
  have hrun := speciesBlockAux_run ts 0 1 L C ts.length [] none
    (List.replicate ts.length (List.replicate C 0)) [] hts4 hLC
    (Or.inr ⟨rfl, hne⟩) (by omega) (by simp)
    (by intro row hrow
        rw [List.eq_of_mem_replicate hrow]
        exact List.length_replicate _ _)
  rw [List.append_nil] at hrun
  rw [parseChars, renderSeqInput, toLines_render _ _ hhead hbody, parseLines,
    parseHeaderAux_run]
  dsimp only
  rw [if_neg (show ¬ ((ts.length : Int) < 0 ∨ (C : Int) < 0) by omega)]
  rw [parseAfterHeader, parseSpeciesBlock]
  simp only [Int.toNat_ofNat]
  rw [hrun]
  dsimp only
  rw [interleaveLoop_empty _ (List.length_pos.mpr hne)]
  dsimp only
  have hwr := writeRowsFrom_replicate (ts.map (fun t => encodeBases t.2.2)) [] C
  simp only [List.length_nil, List.nil_append, List.length_map] at hwr
  rw [hwr]
  simp only [Outcome.ok.injEq, Alignment.mk.injEq, List.nil_append,
    List.map_map, true_and]
  apply List.map_congr_left
  intro t ht
  obtain ⟨-, -, -, h4, -⟩ := hts t ht
  simp [encodeBases, h4]

theorem zipWith_map_same {α β γ δ : Type} (f : β → γ → δ) (g : α → β)
    (h : α → γ) (l : List α) :
    List.zipWith f (l.map g) (l.map h) = l.map (fun a => f (g a) (h a)) := by
  induction l with
  | nil => rfl
  | cons x xs ih => simp [ih]

theorem phylipRows_renderLines (ns : List (List Char)) :
    ∀ rs : List (List Nat),
      phylipRows ns rs = renderLines (List.zipWith
        (fun n r => n.take 99 ++ [' ', ' ', ' ', ' '] ++ r.map Char.ofNat)
        ns rs) := by
  induction ns with
  | nil => intro rs; cases rs <;> rfl
  | cons n ns ih =>
    intro rs
    cases rs with
    | nil => rfl
    | cons r rs =>
      show phylipLine n r ++ phylipRows ns rs = _
      rw [ih rs]
      simp [phylipLine, renderLines, List.append_assoc]

/-- Serializing the alignment produced from a rendered input is itself a
rendered input: truncated names, a four-space separator, decoded rows. -/
theorem writePhylip_renderSeq (ts : List (List Char × List Char × List Char))
    (C L : Nat) :
    writePhylip ⟨ts.map (fun t => t.1), C,
        ts.map (fun t => encodeBases t.2.2 ++ List.replicate (C - L) 0)⟩ =
      renderSeqInput C (ts.map (fun t => (t.1.take 99,
        ([' ', ' ', ' ', ' '] : List Char),
        (encodeBases t.2.2 ++ List.replicate (C - L) 0).map Char.ofNat))) := by
  unfold writePhylip renderSeqInput
  dsimp only
  rw [phylipRows_renderLines, zipWith_map_same]
  simp only [List.length_map, List.map_map, List.append_assoc,
    List.singleton_append]
  rfl

theorem ofNat_zero_upper_toNat : ((Char.ofNat 0).toUpper).toNat = 0 := by
  decide

/-- Claim C10 (confirmed).  For every well-formed sequential-only input
(spec section 6: header `S C`, then `S` lines `name<ws>bases`, names and
bases non-empty and whitespace-free, all bases of one length `L ≤ C`),
parsing succeeds, and serializing the resulting alignment with the phylip
writer and re-parsing yields an alignment with an equal matrix and a
species list equal to the original names truncated to 99 characters. -/
theorem claim_C10_roundtrip (ts : List (List Char × List Char × List Char))
    (C L : Nat) (hne : ts ≠ [])
    (hts : ∀ t ∈ ts, tokenOK t.1 ∧ sepOK t.2.1 ∧ tokenOK t.2.2 ∧
      t.2.2.length = L ∧ '\n' ∉ t.2.1)
    (hLC : L ≤ C) :
    ∃ A, parseChars (renderSeqInput C ts) = .ok A ∧
      A.species = ts.map (fun t => t.1) ∧ A.sequenceLength = C ∧
      ∃ A2, parseChars (writePhylip A) = .ok A2 ∧
        A2.data = A.data ∧
        A2.species = A.species.map (fun n => n.take 99) ∧
        A2.sequenceLength = A.sequenceLength := by
  have hL1 : 1 ≤ L := by
    obtain ⟨t0, ht0⟩ := List.exists_mem_of_ne_nil _ hne
    obtain ⟨-, -, ⟨hbne, -⟩, h4, -⟩ := hts t0 ht0
    rw [← h4]
    exact List.length_pos.mpr hbne
  refine ⟨_, parseChars_renderSeq ts C L hne hts hLC, rfl, rfl, ?_⟩
  have hts2cond : ∀ t' ∈ ts.map (fun t => (t.1.take 99,
      ([' ', ' ', ' ', ' '] : List Char),
      (encodeBases t.2.2 ++ List.replicate (C - L) 0).map Char.ofNat)),
      tokenOK t'.1 ∧ sepOK t'.2.1 ∧ tokenOK t'.2.2 ∧
        t'.2.2.length = C ∧ '\n' ∉ t'.2.1 := by
    intro t' ht'
    rw [List.mem_map] at ht'
    obtain ⟨t, ht, rfl⟩ := ht'
    obtain ⟨⟨hnne, hnns⟩, -, ⟨-, hbns⟩, h4, -⟩ := hts t ht
    refine ⟨⟨?_, ?_⟩, ⟨by simp, ?_⟩, ⟨?_, ?_⟩, ?_,
      show ('\n' ∉ ([' ', ' ', ' ', ' '] : List Char)) from by decide⟩
    · simp only [ne_eq, List.take_eq_nil_iff]
      push_neg
      exact ⟨by omega, hnne⟩
    · intro c hc
      exact hnns c (List.take_subset 99 t.1 hc)
    · intro c hc
      simp only [List.mem_cons, List.not_mem_nil, or_false] at hc
      rcases hc with rfl | rfl | rfl | rfl <;> rfl
    · have : (encodeBases t.2.2 ++ List.replicate (C - L) 0).length = C := by
        simp [encodeBases, h4]
        omega
      simp only [ne_eq, List.map_eq_nil_iff]
      intro hnil
      rw [hnil] at this
      simp at this
      omega
    · intro c hc
      rw [List.mem_map] at hc
      obtain ⟨x, hx, rfl⟩ := hc
      rcases List.mem_append.mp hx with hx | hx
      · rw [encodeBases, List.map_map] at hx
        rw [List.mem_map] at hx
        obtain ⟨b, hb, rfl⟩ := hx
        show pyIsSpace (Char.ofNat (Char.toUpper b).toNat) = false
        rw [Char.ofNat_toNat]
        exact toUpper_nonspace _ (hbns b hb)
      · rw [List.eq_of_mem_replicate hx]
        decide
    · simp [encodeBases, h4]
      omega
  have hne2 : ts.map (fun t => (t.1.take 99,
      ([' ', ' ', ' ', ' '] : List Char),
      (encodeBases t.2.2 ++ List.replicate (C - L) 0).map Char.ofNat)) ≠
        [] := by
    simp [hne]
  have hrun2 := parseChars_renderSeq _ C C hne2 hts2cond (Nat.le_refl C)
  rw [← writePhylip_renderSeq ts C L] at hrun2
  refine ⟨_, hrun2, ?_, ?_, ?_⟩
  · simp only [List.map_map, Nat.sub_self, List.replicate_zero,
      List.append_nil]
    apply List.map_congr_left
    intro t ht
    obtain ⟨-, -, ⟨-, hbns⟩, -, -⟩ := hts t ht
    simp only [Function.comp_apply]
    show encodeBases ((encodeBases t.2.2 ++
        List.replicate (C - L) 0).map Char.ofNat) =
      encodeBases t.2.2 ++ List.replicate (C - L) 0
    have hcell : ∀ x ∈ encodeBases t.2.2 ++ List.replicate (C - L) 0,
        ((Char.ofNat x).toUpper).toNat = x := by
      intro x hx
      rcases List.mem_append.mp hx with hx | hx
      · rw [encodeBases, List.map_map] at hx
        rw [List.mem_map] at hx
        obtain ⟨b, hb, rfl⟩ := hx
        exact cell_code_roundtrip b
      · rw [List.eq_of_mem_replicate hx]
        exact ofNat_zero_upper_toNat
    calc encodeBases ((encodeBases t.2.2 ++
            List.replicate (C - L) 0).map Char.ofNat)
        = (encodeBases t.2.2 ++ List.replicate (C - L) 0).map
            (fun x => ((Char.ofNat x).toUpper).toNat) := by
          rw [encodeBases, List.map_map, List.map_map]
          rfl
      _ = (encodeBases t.2.2 ++ List.replicate (C - L) 0).map id :=
          List.map_congr_left (fun x hx => hcell x hx)
      _ = encodeBases t.2.2 ++ List.replicate (C - L) 0 := List.map_id _
  · simp only [List.map_map]
    rfl
  · rfl

/-- Witness for C10: a two-species file (`Alpha acgt`, `B  TTAA`) with
declared length 5 parses and round-trips through the phylip writer. -/
theorem claim_C10_witness :
    ∃ A, parseChars (renderSeqInput 5
        [(['A', 'l', 'p', 'h', 'a'], [' '], ['a', 'c', 'g', 't']),
         (['B'], [' ', ' '], ['T', 'T', 'A', 'A'])]) = .ok A ∧
      A.species = [['A', 'l', 'p', 'h', 'a'], ['B']] ∧
      A.sequenceLength = 5 ∧
      ∃ A2, parseChars (writePhylip A) = .ok A2 ∧
        A2.data = A.data ∧
        A2.species = A.species.map (fun n => n.take 99) ∧
        A2.sequenceLength = A.sequenceLength :=
  claim_C10_roundtrip
    [(['A', 'l', 'p', 'h', 'a'], [' '], ['a', 'c', 'g', 't']),
     (['B'], [' ', ' '], ['T', 'T', 'A', 'A'])] 5 4
    (by decide) (by decide) (by decide)

end PF
